import Mathlib

/-!
# Verification of the cpc-data two-stage transform pipeline

Shallow embedding of the processing and extraction stages of the cpc-data
repository (`src/processing/*.py`, `src/extraction/*.py`,
`src/schema/recordings/base.py`), together with proofs settling the frozen
claims about them.

Modelling conventions:
* A Python `dict` is an association list `List (String × β)`; Python dicts
  iterate in insertion order, which is what list order models.  Keys of a
  Python dict are unique; lemmas that need this take a `Nodup` hypothesis.
* Python floats are modelled as exact rationals (`ℚ`) for the processing
  and PAA algorithms, and as reals (`ℝ`) for the statistical features
  (which use square roots).
* A transform that may raise an exception or return Python `None` is
  modelled as returning `Option _`, with `none` covering both failure modes
  (the orchestrators in `apply.py` treat the two identically).
-/

set_option autoImplicit false

universe u v

/-! ## Python dict operations on association lists -/

/-- `d[k] = v` on a Python dict: replace the value at the first occurrence of
`k`, keeping its position, or append `(k, v)` at the end if `k` is absent. -/
def dinsert {β : Type v} (k : String) (v : β) : List (String × β) → List (String × β)
  | [] => [(k, v)]
  | (k₁, v₁) :: rest => if k₁ = k then (k, v) :: rest else (k₁, v₁) :: dinsert k v rest

/-- `d.pop(k)` (sans the returned value): remove the entry with key `k`.
A Python dict holds each key at most once, so removing every occurrence
coincides with removing the single entry. -/
def dpop {β : Type v} (k : String) (d : List (String × β)) : List (String × β) :=
  d.filter (fun kv => kv.1 ≠ k)

theorem lookup_dinsert_self {β : Type v} (k : String) (v : β) (d : List (String × β)) :
    List.lookup k (dinsert k v d) = some v := by
  induction d with
  | nil => simp [dinsert, List.lookup]
  | cons kv rest ih =>
    obtain ⟨k₁, v₁⟩ := kv
    by_cases h : k₁ = k
    · simp [dinsert, h, List.lookup]
    · simp only [dinsert, if_neg h, List.lookup]
      have : (k == k₁) = false := by
        simp [beq_iff_eq]
        exact fun hk => h hk.symm
      simp [this, ih]

theorem lookup_dinsert_ne {β : Type v} {k k₁ : String} (v : β) (d : List (String × β))
    (h : k₁ ≠ k) : List.lookup k (dinsert k₁ v d) = List.lookup k d := by
  induction d with
  | nil =>
    have : (k == k₁) = false := by simp [beq_iff_eq]; exact fun hk => h hk.symm
    simp [dinsert, List.lookup, this]
  | cons kv rest ih =>
    obtain ⟨k₂, v₂⟩ := kv
    by_cases h₂ : k₂ = k₁
    · subst h₂
      have : (k == k₂) = false := by simp [beq_iff_eq]; exact fun hk => h hk.symm
      simp [dinsert, List.lookup, this]
    · simp only [dinsert, if_neg h₂, List.lookup]
      by_cases hk : k = k₂
      · simp [hk]
      · have : (k == k₂) = false := by simp [beq_iff_eq, hk]
        simp [this, ih]

theorem lookup_dpop_self {β : Type v} (k : String) (d : List (String × β)) :
    List.lookup k (dpop k d) = none := by
  induction d with
  | nil => simp [dpop, List.lookup]
  | cons kv rest ih =>
    obtain ⟨k₁, v₁⟩ := kv
    by_cases h : k₁ = k
    · simpa [dpop, h] using ih
    · have : (k == k₁) = false := by simp [beq_iff_eq]; exact fun hk => h hk.symm
      simpa [dpop, h, List.lookup, this] using ih

/-! ## Processing stage (`src/processing/apply.py`)

The step registry `PROCESSING_REGISTRY` is a mapping from step names to
transform functions; the orchestrator is parametric in it.  A step
configuration value in `processing.yml` is either the literal `False`
(step disabled) or a parameter record; parameters are abstract (`π`).
The time axis handed to every step is the raw value stored under the
`"time"` key, which may itself be Python `None`, hence `Option (List α)`. -/

/-- A registered processing transform: `func(data, time_data, **step_config)`.
`none` models the function raising, or returning `None`. -/
abbrev ProcTransform (α : Type u) (π : Type v) :=
  List α → Option (List α) → π → Option (List α)

/-- `PROCESSING_REGISTRY`, abstractly: name → registered transform. -/
abbrev ProcRegistry (α : Type u) (π : Type v) := String → Option (ProcTransform α π)

/-- A value of the per-series step configuration dict: the boolean `False`
(disables the step) or a parameter record. -/
inductive StepCfg (π : Type v) where
  | disabled
  | params (p : π)
deriving DecidableEq

/-- The per-series processing configuration: step name → step config,
in execution order. -/
abbrev SeriesSteps (π : Type v) := List (String × StepCfg π)

/-- A series bundle: series name → series, where a stored series may be
Python `None`. -/
abbrev SeriesDict (α : Type u) := List (String × Option (List α))

/-- `_should_skip_step` (apply.py:168–193): skip when the step config is
`False` or the step name is not registered. -/
def should_skip_step {α : Type u} {π : Type v} (reg : ProcRegistry α π) (stepName : String) :
    StepCfg π → Bool
  | .disabled => true
  | .params _ => (reg stepName).isNone

/-- `_apply_single_step` (apply.py:196–243): run the registered transform on
the current data; `none` models both the `except` branch and a `None`
return value (the caller treats them identically). -/
def apply_single_step {α : Type u} {π : Type v} (reg : ProcRegistry α π) (current : List α)
    (timeData : Option (List α)) (stepName : String) : StepCfg π → Option (List α)
  | .params p =>
    match reg stepName with
    | some f => f current timeData p
    | none => none
  | .disabled => none

/-- The loop body of `_process_series_steps` (apply.py:151–165), with the
original series kept for the failure case. -/
def processLoop {α : Type u} {π : Type v} (reg : ProcRegistry α π) (timeData : Option (List α))
    (original : List α) : List α → SeriesSteps π → List α
  | current, [] => current
  | current, (stepName, cfg) :: rest =>
    if should_skip_step reg stepName cfg then processLoop reg timeData original current rest
    else
      match apply_single_step reg current timeData stepName cfg with
      | none => original
      | some d => processLoop reg timeData original d rest

/-- `_process_series_steps` (apply.py:123–165). -/
def process_series_steps {α : Type u} {π : Type v} (reg : ProcRegistry α π)
    (originalData : List α) (timeData : Option (List α)) (seriesConfig : SeriesSteps π) :
    List α :=
  processLoop reg timeData originalData originalData seriesConfig

/-- Specification helper: run the steps of a series configuration in order,
propagating failure.  `some d` means every non-skipped step succeeded with
final value `d`; `none` means some non-skipped step raised or returned
`None`. -/
def runStepsOk {α : Type u} {π : Type v} (reg : ProcRegistry α π) (timeData : Option (List α)) :
    List α → SeriesSteps π → Option (List α)
  | current, [] => some current
  | current, (stepName, cfg) :: rest =>
    if should_skip_step reg stepName cfg then runStepsOk reg timeData current rest
    else
      match apply_single_step reg current timeData stepName cfg with
      | none => none
      | some d => runStepsOk reg timeData d rest

/-- Core recovery law of `_process_series_steps`: either every non-skipped
step succeeds and the chained result is returned, or the result is exactly
the original series. -/
theorem processLoop_eq_runStepsOk {α : Type u} {π : Type v} (reg : ProcRegistry α π)
    (timeData : Option (List α)) (original : List α) (cfg : SeriesSteps π) :
    ∀ current, processLoop reg timeData original current cfg =
      (runStepsOk reg timeData current cfg).getD original := by
  induction cfg with
  | nil => intro current; simp [processLoop, runStepsOk]
  | cons step rest ih =>
    intro current
    obtain ⟨stepName, c⟩ := step
    by_cases hskip : should_skip_step reg stepName c
    · simp only [processLoop, runStepsOk, if_pos hskip]
      exact ih current
    · simp only [processLoop, runStepsOk, if_neg hskip]
      cases apply_single_step reg current timeData stepName c with
      | none => simp
      | some d => simpa using ih d

/-- `_should_skip_series` (apply.py:95–120): skip when the series is absent
from the bundle or its stored value is `None`. -/
def should_skip_series {α : Type u} (seriesName : String) (seriesDict : SeriesDict α) : Bool :=
  match List.lookup seriesName seriesDict with
  | none => true
  | some none => true
  | some (some _) => false

/-- `_prepare_processing_data` (apply.py:73–92): `pop` the `"time"` key.
`none` models the `KeyError` raised when the key is absent. -/
def prepare_processing_data {α : Type u} (seriesDict : SeriesDict α) :
    Option (SeriesDict α × Option (List α)) :=
  match List.lookup "time" seriesDict with
  | none => none
  | some t => some (dpop "time" seriesDict, t)

/-- The per-series loop of `apply_processing` (apply.py:56–68). -/
def procSeriesLoop {α : Type u} {π : Type v} (reg : ProcRegistry α π)
    (timeData : Option (List α)) (seriesDict : SeriesDict α) :
    SeriesDict α → List (String × SeriesSteps π) → SeriesDict α
  | processedData, [] => processedData
  | processedData, (seriesName, seriesConfig) :: rest =>
    if should_skip_series seriesName seriesDict then
      procSeriesLoop reg timeData seriesDict processedData rest
    else
      match List.lookup seriesName seriesDict with
      | some (some data) =>
        procSeriesLoop reg timeData seriesDict
          (dinsert seriesName
            (some (process_series_steps reg data timeData seriesConfig)) processedData)
          rest
      | _ => procSeriesLoop reg timeData seriesDict processedData rest

/-- `apply_processing` (apply.py:4–70).  `Except.error ()` models the
uncaught `KeyError` from `_prepare_processing_data` when `"time"` is
missing. -/
def apply_processing {α : Type u} {π : Type v} (reg : ProcRegistry α π)
    (seriesDict : SeriesDict α) (config : List (String × SeriesSteps π)) :
    Except Unit (SeriesDict α) :=
  if seriesDict.isEmpty || config.isEmpty then
    .ok (if seriesDict.isEmpty then [] else seriesDict)
  else
    match prepare_processing_data seriesDict with
    | none => .error ()
    | some (processedData, timeData) =>
      .ok (procSeriesLoop reg timeData seriesDict processedData config)

/-! ## Lookup lemmas for the per-series processing loop -/

theorem procSeriesLoop_lookup_notmem {α : Type u} {π : Type v} (reg : ProcRegistry α π)
    (timeData : Option (List α)) (seriesDict : SeriesDict α) (s : String)
    (cfg : List (String × SeriesSteps π)) (h : s ∉ cfg.map Prod.fst) :
    ∀ pd, List.lookup s (procSeriesLoop reg timeData seriesDict pd cfg) = List.lookup s pd := by
  induction cfg with
  | nil => intro pd; rfl
  | cons entry rest ih =>
    intro pd
    obtain ⟨name, scfg⟩ := entry
    simp only [List.map_cons, List.mem_cons, not_or] at h
    obtain ⟨hne, hrest⟩ := h
    have ihr := ih hrest
    by_cases hskip : should_skip_series name seriesDict
    · simp only [procSeriesLoop, if_pos hskip]; exact ihr pd
    · simp only [procSeriesLoop, if_neg hskip]
      cases hl : List.lookup name seriesDict with
      | none => exact ihr pd
      | some o =>
        cases o with
        | none => exact ihr pd
        | some data =>
          rw [ihr, lookup_dinsert_ne _ _ (fun e => hne e.symm)]

theorem procSeriesLoop_lookup_mem {α : Type u} {π : Type v} (reg : ProcRegistry α π)
    (timeData : Option (List α)) (seriesDict : SeriesDict α) (s : String)
    (scfg : SeriesSteps π) (data : List α) (cfg : List (String × SeriesSteps π))
    (hnodup : (cfg.map Prod.fst).Nodup)
    (hcfg : List.lookup s cfg = some scfg)
    (hdata : List.lookup s seriesDict = some (some data)) :
    ∀ pd, List.lookup s (procSeriesLoop reg timeData seriesDict pd cfg) =
      some (some (process_series_steps reg data timeData scfg)) := by
  induction cfg with
  | nil => intro pd; simp [List.lookup] at hcfg
  | cons entry rest ih =>
    intro pd
    obtain ⟨name, c⟩ := entry
    simp only [List.map_cons, List.nodup_cons] at hnodup
    by_cases hs : s = name
    · subst hs
      have hc : c = scfg := by simpa [List.lookup] using hcfg
      subst hc
      have hskip : should_skip_series s seriesDict = false := by
        simp [should_skip_series, hdata]
      simp only [procSeriesLoop, hskip, Bool.false_eq_true, if_false, hdata]
      rw [procSeriesLoop_lookup_notmem reg timeData seriesDict s rest hnodup.1,
        lookup_dinsert_self]
    · have hcfg' : List.lookup s rest = some scfg := by
        have : (s == name) = false := by simp [beq_iff_eq, hs]
        simpa [List.lookup, this] using hcfg
      have ihr := ih hnodup.2 hcfg'
      by_cases hskip : should_skip_series name seriesDict
      · simp only [procSeriesLoop, if_pos hskip]; exact ihr pd
      · simp only [procSeriesLoop, if_neg hskip]
        cases hl : List.lookup name seriesDict with
        | none => exact ihr pd
        | some o =>
          cases o with
          | none => exact ihr pd
          | some d0 => exact ihr _

/-- **C1.** For every series, time axis and ordered step configuration: if a
configured processing step raises or returns the null sentinel, the remaining
steps for that series are not applied, and the series' entry in the output of
`apply_processing` equals the original series supplied at the start of that
series' pipeline (not the last successful intermediate result). -/
theorem claim1_processing_failure_reverts_to_original {α : Type u} {π : Type v}
    (reg : ProcRegistry α π) (sd : SeriesDict α) (config : List (String × SeriesSteps π))
    (s : String) (scfg : SeriesSteps π) (data : List α) (t : Option (List α))
    (hnodup : (config.map Prod.fst).Nodup)
    (hcfg : List.lookup s config = some scfg)
    (hdata : List.lookup s sd = some (some data))
    (ht : List.lookup "time" sd = some t)
    (hfail : runStepsOk reg t data scfg = none) :
    process_series_steps reg data t scfg = data ∧
    ∃ d, apply_processing reg sd config = .ok d ∧ List.lookup s d = some (some data) := by
  have hrevert : process_series_steps reg data t scfg = data := by
    rw [process_series_steps, processLoop_eq_runStepsOk, hfail]
    rfl
  refine ⟨hrevert, ?_⟩
  have hsd : sd.isEmpty = false := by
    cases sd with
    | nil => simp [List.lookup] at ht
    | cons _ _ => rfl
  have hc : config.isEmpty = false := by
    cases config with
    | nil => simp [List.lookup] at hcfg
    | cons _ _ => rfl
  refine ⟨procSeriesLoop reg t sd (dpop "time" sd) config, ?_, ?_⟩
  · rw [apply_processing, hsd, hc]
    simp only [Bool.or_self, Bool.false_eq_true, if_false]
    rw [prepare_processing_data, ht]
  · rw [procSeriesLoop_lookup_mem reg t sd s scfg data config hnodup hcfg hdata, hrevert]

/-- Concrete registry for the claim-1 witness: a step that duplicates the
series and a step that always fails. -/
def regWitness : ProcRegistry ℚ Unit := fun name =>
  if name = "dup" then some (fun d _ _ => some (d ++ d))
  else if name = "fail" then some (fun _ _ _ => none)
  else none

theorem claim1_witness :
    process_series_steps regWitness [1, 2] (some [])
        [("dup", .params ()), ("fail", .params ())] = [1, 2] ∧
    ∃ d, apply_processing regWitness [("time", some []), ("a", some [1, 2])]
        [("a", [("dup", .params ()), ("fail", .params ())])] = .ok d ∧
      List.lookup "a" d = some (some [1, 2]) :=
  claim1_processing_failure_reverts_to_original regWitness
    [("time", some []), ("a", some [1, 2])]
    [("a", [("dup", .params ()), ("fail", .params ())])]
    "a" [("dup", .params ()), ("fail", .params ())] [1, 2] (some [])
    (by decide) (by decide) (by decide) (by decide) (by decide)

/-- **C10.** If the input `series_dict` is non-empty and the processing
configuration is non-empty but `series_dict` has no `"time"` key,
`apply_processing` raises a `KeyError`; with an empty `series_dict` or an
empty configuration it returns a copy of the input without raising. -/
theorem claim10_apply_processing_time_keyerror {α : Type u} {π : Type v}
    (reg : ProcRegistry α π) (sd : SeriesDict α) (config : List (String × SeriesSteps π)) :
    (sd ≠ [] → config ≠ [] → List.lookup "time" sd = none →
      apply_processing reg sd config = .error ()) ∧
    apply_processing reg ([] : SeriesDict α) config = .ok [] ∧
    apply_processing reg sd ([] : List (String × SeriesSteps π)) = .ok sd := by
  refine ⟨?_, ?_, ?_⟩
  · intro hsd hc ht
    have hsd' : sd.isEmpty = false := by cases sd with
      | nil => exact absurd rfl hsd
      | cons _ _ => rfl
    have hc' : config.isEmpty = false := by cases config with
      | nil => exact absurd rfl hc
      | cons _ _ => rfl
    rw [apply_processing, hsd', hc']
    simp only [Bool.or_self, Bool.false_eq_true, if_false]
    rw [prepare_processing_data, ht]
  · rfl
  · cases sd with
    | nil => rfl
    | cons kv rest => rfl

/-- Trivial registry for concrete witnesses. -/
def regEmpty : ProcRegistry ℚ Unit := fun _ => none

theorem claim10_witness :
    apply_processing regEmpty [("a", some [(1 : ℚ)])] [("a", ([] : SeriesSteps Unit))] =
      .error () ∧
    apply_processing regEmpty ([] : SeriesDict ℚ) [("a", ([] : SeriesSteps Unit))] = .ok [] ∧
    apply_processing regEmpty [("a", some [(1 : ℚ)])] ([] : List (String × SeriesSteps Unit)) =
      .ok [("a", some [(1 : ℚ)])] :=
  ⟨(claim10_apply_processing_time_keyerror regEmpty [("a", some [(1 : ℚ)])]
      [("a", ([] : SeriesSteps Unit))]).1 (by decide) (by decide) (by decide),
   (claim10_apply_processing_time_keyerror regEmpty []
      [("a", ([] : SeriesSteps Unit))]).2.1,
   (claim10_apply_processing_time_keyerror regEmpty [("a", some [(1 : ℚ)])] []).2.2⟩

/-- **C3, counterexample.** The claim asserts that for every non-empty bundle
containing `"time"` and *every* configuration, including the empty one, the
output of `apply_processing` does not contain `"time"`.  With the empty
configuration the code returns a copy of the input bundle, which still
contains the `"time"` entry. -/
theorem claim3_counterexample :
    apply_processing regEmpty [("time", some [(0 : ℚ)])]
        ([] : List (String × SeriesSteps Unit)) = .ok [("time", some [0])] ∧
    List.lookup "time" [("time", some [(0 : ℚ)])] = some (some [0]) := by
  constructor <;> rfl

/-- **C3, amended.** For every non-empty input bundle containing the `"time"`
key and every *non-empty* processing configuration that does not itself
configure a series named `"time"`, the dictionary returned by
`apply_processing` does not contain the key `"time"`.  (With the empty
configuration, the input — including `"time"` — is returned as a copy; a
configuration entry named `"time"` would be processed and re-inserted like
any other series.) -/
theorem claim3_amended_time_removed {α : Type u} {π : Type v} (reg : ProcRegistry α π)
    (sd : SeriesDict α) (config : List (String × SeriesSteps π)) (t : Option (List α))
    (ht : List.lookup "time" sd = some t)
    (hc : config ≠ [])
    (htc : "time" ∉ config.map Prod.fst) :
    ∃ d, apply_processing reg sd config = .ok d ∧ List.lookup "time" d = none := by
  have hsd : sd.isEmpty = false := by
    cases sd with
    | nil => simp [List.lookup] at ht
    | cons _ _ => rfl
  have hc' : config.isEmpty = false := by cases config with
    | nil => exact absurd rfl hc
    | cons _ _ => rfl
  refine ⟨procSeriesLoop reg t sd (dpop "time" sd) config, ?_, ?_⟩
  · rw [apply_processing, hsd, hc']
    simp only [Bool.or_self, Bool.false_eq_true, if_false]
    rw [prepare_processing_data, ht]
  · rw [procSeriesLoop_lookup_notmem reg t sd "time" config htc, lookup_dpop_self]

theorem claim3_witness :
    ∃ d, apply_processing regEmpty [("time", some [(0 : ℚ)]), ("a", some [1])]
        [("a", ([] : SeriesSteps Unit))] = .ok d ∧ List.lookup "time" d = none :=
  claim3_amended_time_removed regEmpty [("time", some [(0 : ℚ)]), ("a", some [1])]
    [("a", ([] : SeriesSteps Unit))] (some [0]) (by decide) (by decide) (by decide)

/-! ## Extraction stage (`src/extraction/apply.py`) -/

/-- A scalar configuration value from `extraction.yml`. -/
inductive CfgVal where
  | str (s : String)
  | bool (b : Bool)
  | num (q : ℚ)
deriving DecidableEq

/-- A registered extraction method: `func(series_data, **extraction_params)`.
`none` models the function raising, or returning `None`. -/
abbrev ExtTransform (α : Type u) (φ : Type v) :=
  List α → List (String × CfgVal) → Option φ

/-- `EXTRACTION_REGISTRY`, abstractly: method name → extraction function. -/
abbrev ExtRegistry (α : Type u) (φ : Type v) := String → Option (ExtTransform α φ)

/-- `_should_skip_extraction` (extraction/apply.py:62–88): skip when the
series is absent from the processed data, is `None`, or is empty. -/
def should_skip_extraction {α : Type u} (seriesName : String) (pd : SeriesDict α) : Bool :=
  match List.lookup seriesName pd with
  | none => true
  | some none => true
  | some (some d) => d.isEmpty

/-- `_extract_series_features` (extraction/apply.py:91–136): look up
`method` (default `"raw"`), return `None` for an unregistered method, else
call the extractor with the parameters minus the `"method"` key.  A
non-string method value is never a key of the registry dict. -/
def extract_series_features {α : Type u} {φ : Type v} (reg : ExtRegistry α φ)
    (data : List α) (scfg : List (String × CfgVal)) : Option φ :=
  match (List.lookup "method" scfg).getD (.str "raw") with
  | .str m =>
    match reg m with
    | none => none
    | some f => f data (scfg.filter (fun kv => kv.1 ≠ "method"))
  | _ => none

/-- `series_data = processed_series_dict[series_name]` followed by
`_extract_series_features(series_data, …)`: the lookup cannot fail when the
series was not skipped, so the `none` fallback of the catch-all branch is
unreachable there. -/
def extStep {α : Type u} {φ : Type v} (reg : ExtRegistry α φ) (pd : SeriesDict α)
    (seriesName : String) (scfg : List (String × CfgVal)) : Option φ :=
  match List.lookup seriesName pd with
  | some (some data) => extract_series_features reg data scfg
  | _ => none

/-- The per-series loop of `apply_extraction` (extraction/apply.py:44–59).
A `None` extraction result is assigned and immediately `del`eted, so the net
effect is that no entry is produced for that series. -/
def extLoop {α : Type u} {φ : Type v} (reg : ExtRegistry α φ) (pd : SeriesDict α) :
    List (String × φ) → List (String × List (String × CfgVal)) → List (String × φ)
  | acc, [] => acc
  | acc, (seriesName, scfg) :: rest =>
    if should_skip_extraction seriesName pd then extLoop reg pd acc rest
    else
      match extStep reg pd seriesName scfg with
      | some v => extLoop reg pd (dinsert seriesName v acc) rest
      | none => extLoop reg pd acc rest

/-- `apply_extraction` (extraction/apply.py:4–59). -/
def apply_extraction {α : Type u} {φ : Type v} (reg : ExtRegistry α φ) (pd : SeriesDict α)
    (config : List (String × List (String × CfgVal))) : List (String × φ) :=
  if pd.isEmpty || config.isEmpty then [] else extLoop reg pd [] config

theorem extLoop_lookup_notmem {α : Type u} {φ : Type v} (reg : ExtRegistry α φ)
    (pd : SeriesDict α) (s : String) (cfg : List (String × List (String × CfgVal)))
    (h : s ∉ cfg.map Prod.fst) :
    ∀ acc, List.lookup s (extLoop reg pd acc cfg) = List.lookup s acc := by
  induction cfg with
  | nil => intro acc; rfl
  | cons entry rest ih =>
    intro acc
    obtain ⟨name, scfg⟩ := entry
    simp only [List.map_cons, List.mem_cons, not_or] at h
    obtain ⟨hne, hrest⟩ := h
    have ihr := ih hrest
    by_cases hskip : should_skip_extraction name pd
    · simp only [extLoop, if_pos hskip]; exact ihr acc
    · simp only [extLoop, if_neg hskip]
      cases hs : extStep reg pd name scfg with
      | none => exact ihr acc
      | some v => rw [ihr, lookup_dinsert_ne _ _ (fun e => hne e.symm)]

theorem extLoop_drop_failing {α : Type u} {φ : Type v} (reg : ExtRegistry α φ)
    (pd : SeriesDict α) (name : String) (scfg : List (String × CfgVal)) (data : List α)
    (cfg₂ : List (String × List (String × CfgVal)))
    (hdata : List.lookup name pd = some (some data))
    (hne : data ≠ [])
    (hfail : extract_series_features reg data scfg = none) :
    ∀ (cfg₁ : List (String × List (String × CfgVal))) acc,
      extLoop reg pd acc (cfg₁ ++ (name, scfg) :: cfg₂) = extLoop reg pd acc (cfg₁ ++ cfg₂) := by
  have hstep : extStep reg pd name scfg = none := by
    simp only [extStep, hdata]
    exact hfail
  intro cfg₁
  induction cfg₁ with
  | nil =>
    intro acc
    have hskip : should_skip_extraction name pd = false := by
      rw [should_skip_extraction, hdata]
      cases data with
      | nil => exact absurd rfl hne
      | cons _ _ => rfl
    simp only [List.nil_append, extLoop, hskip, Bool.false_eq_true, if_false, hstep]
  | cons entry rest ih =>
    intro acc
    obtain ⟨k, c⟩ := entry
    by_cases hskip : should_skip_extraction k pd
    · simp only [List.cons_append, extLoop, if_pos hskip]; exact ih acc
    · simp only [List.cons_append, extLoop, if_neg hskip]
      cases hs : extStep reg pd k c with
      | none => exact ih acc
      | some v => exact ih _

/-- **C4.** If a configured series' extraction method is unregistered, or the
extractor raises or returns null (all modelled by
`extract_series_features … = none`), then that series' key is entirely absent
from the returned `FeatureBundle` — no null placeholder — and the output is
exactly the output of extraction with that series dropped from the
configuration, so the other configured series still complete. -/
theorem claim4_extraction_failure_omits_series {α : Type u} {φ : Type v}
    (reg : ExtRegistry α φ) (pd : SeriesDict α)
    (cfg₁ cfg₂ : List (String × List (String × CfgVal)))
    (name : String) (scfg : List (String × CfgVal)) (data : List α)
    (hmem₁ : name ∉ cfg₁.map Prod.fst) (hmem₂ : name ∉ cfg₂.map Prod.fst)
    (hdata : List.lookup name pd = some (some data))
    (hne : data ≠ [])
    (hfail : extract_series_features reg data scfg = none) :
    List.lookup name (apply_extraction reg pd (cfg₁ ++ (name, scfg) :: cfg₂)) = none ∧
    apply_extraction reg pd (cfg₁ ++ (name, scfg) :: cfg₂) =
      apply_extraction reg pd (cfg₁ ++ cfg₂) := by
  have hpd : pd.isEmpty = false := by
    cases pd with
    | nil => simp [List.lookup] at hdata
    | cons _ _ => rfl
  have hcfgL : (cfg₁ ++ (name, scfg) :: cfg₂).isEmpty = false := by
    cases cfg₁ with
    | nil => rfl
    | cons _ _ => rfl
  have hdrop := extLoop_drop_failing reg pd name scfg data cfg₂ hdata hne hfail cfg₁ []
  have hL : apply_extraction reg pd (cfg₁ ++ (name, scfg) :: cfg₂) =
      extLoop reg pd [] (cfg₁ ++ cfg₂) := by
    rw [apply_extraction, hpd, hcfgL]
    simpa using hdrop
  have hnotmem : name ∉ (cfg₁ ++ cfg₂).map Prod.fst := by
    simp only [List.map_append, List.mem_append, not_or]
    exact ⟨hmem₁, hmem₂⟩
  constructor
  · rw [hL, extLoop_lookup_notmem reg pd name (cfg₁ ++ cfg₂) hnotmem]
    rfl
  · rw [hL, apply_extraction, hpd]
    cases hc : cfg₁ ++ cfg₂ with
    | nil =>
      simp only [List.isEmpty_nil, Bool.or_true, if_true]
      rfl
    | cons e rest => simp

/-- The `"raw"` entry of `EXTRACTION_REGISTRY` (extraction/__init__.py:8):
`lambda data, **kwargs: data.copy() if data else []`. -/
def raw_extractor : ExtTransform ℚ (List ℚ) := fun data _ =>
  some (if data.isEmpty then [] else data)

/-- Fragment of `EXTRACTION_REGISTRY` used by the concrete witnesses: only
the `"raw"` entry is modelled; the claims at this level never invoke the
other entries (paa, pca, tsfresh, statistics, catch22). -/
def extRegistryRaw : ExtRegistry ℚ (List ℚ) := fun name =>
  if name = "raw" then some raw_extractor else none

theorem claim4_witness :
    List.lookup "b" (apply_extraction extRegistryRaw
        [("a", some [(1 : ℚ)]), ("b", some [2])]
        ([("a", [("method", CfgVal.str "raw")])] ++
          ("b", [("method", CfgVal.str "nope")]) :: [])) = none ∧
    apply_extraction extRegistryRaw [("a", some [(1 : ℚ)]), ("b", some [2])]
        ([("a", [("method", CfgVal.str "raw")])] ++
          ("b", [("method", CfgVal.str "nope")]) :: []) =
      apply_extraction extRegistryRaw [("a", some [(1 : ℚ)]), ("b", some [2])]
        ([("a", [("method", CfgVal.str "raw")])] ++ []) :=
  claim4_extraction_failure_omits_series extRegistryRaw
    [("a", some [(1 : ℚ)]), ("b", some [2])]
    [("a", [("method", CfgVal.str "raw")])] []
    "b" [("method", CfgVal.str "nope")] [2]
    (by decide) (by decide) (by decide) (by decide) (by decide)

/-- **C2, counterexample.** The claim locates the `use_series` filter in the
extraction stage function `apply_extraction`, but `apply_extraction` never
consults `use_series` (the key is even forwarded to the extractor as an
ignored keyword argument): a series configured with `use_series = false` and
the registered method `"raw"` still appears in its output. -/
theorem claim2_counterexample :
    apply_extraction extRegistryRaw [("a", some [(1 : ℚ)])]
        [("a", [("method", CfgVal.str "raw"), ("use_series", CfgVal.bool false)])] =
      [("a", [1])] ∧
    List.lookup "use_series"
        [("method", CfgVal.str "raw"), ("use_series", CfgVal.bool false)] =
      some (CfgVal.bool false) := by
  constructor <;> rfl

/-! ## `BaseRecording._apply_extraction` (src/schema/recordings/base.py:113–145)

This is where the `use_series` flag is actually enforced.  The method
dispatcher `self._apply_method` is abstracted as a function parameter;
`none` models `_apply_method` raising (`ValueError` for an unknown method),
which aborts the loop into the `except` branch of `_apply_extraction`. -/

/-- Python truthiness of a configuration value (`bool(v)`). -/
def CfgVal.truthy : CfgVal → Bool
  | .bool b => b
  | .str s => decide (s ≠ "")
  | .num q => decide (q ≠ 0)

/-- `series_config.get("use_series", False)` used as the condition of an
`if`, i.e. via Python truthiness. -/
def getUseSeries (scfg : List (String × CfgVal)) : Bool :=
  ((List.lookup "use_series" scfg).map CfgVal.truthy).getD false

/-- The body of one iteration over `class_config.items()`
(base.py:123–139): the pair of method value and parameter record handed to
`self._apply_method`. -/
def baseMethodCall {σ : Type u} (applyMethod : σ → CfgVal → List (String × CfgVal) → Option σ)
    (data : σ) (scfg : List (String × CfgVal)) : Option σ :=
  applyMethod data ((List.lookup "method" scfg).getD (.str "raw"))
    (scfg.filter (fun kv => kv.1 ≠ "use_series" ∧ kv.1 ≠ "method"))

/-- `series_data = processed_data[series_name]` followed by
`self._apply_method(series_data, method, **params)`: a failed lookup, like a
raising `_apply_method`, would surface as an exception, i.e. `none`. -/
def baseSeriesStep {σ : Type u}
    (applyMethod : σ → CfgVal → List (String × CfgVal) → Option σ)
    (processedData : List (String × σ)) (seriesName : String)
    (scfg : List (String × CfgVal)) : Option σ :=
  (List.lookup seriesName processedData).bind
    (fun data => baseMethodCall applyMethod data scfg)

/-- The loop of `BaseRecording._apply_extraction` inside the `try:` block.
`none` propagates an exception from `_apply_method`. -/
def baseExtractionLoop {σ : Type u}
    (applyMethod : σ → CfgVal → List (String × CfgVal) → Option σ)
    (processedData : List (String × σ)) :
    List (String × σ) → List (String × List (String × CfgVal)) →
      Option (List (String × σ))
  | results, [] => some results
  | results, (seriesName, scfg) :: rest =>
    if getUseSeries scfg && (List.lookup seriesName processedData).isSome then
      match baseSeriesStep applyMethod processedData seriesName scfg with
      | some v =>
        baseExtractionLoop applyMethod processedData (dinsert seriesName v results) rest
      | none => none
    else baseExtractionLoop applyMethod processedData results rest

/-- `BaseRecording._apply_extraction`: on any exception the `except` branch
returns the processed data unchanged. -/
def base_apply_extraction {σ : Type u}
    (applyMethod : σ → CfgVal → List (String × CfgVal) → Option σ)
    (classConfig : List (String × List (String × CfgVal)))
    (processedData : List (String × σ)) : List (String × σ) :=
  match baseExtractionLoop applyMethod processedData [] classConfig with
  | some results => results
  | none => processedData

theorem baseExtractionLoop_lookup_source {σ : Type u}
    (applyMethod : σ → CfgVal → List (String × CfgVal) → Option σ)
    (processedData : List (String × σ)) (name : String) :
    ∀ (cfg : List (String × List (String × CfgVal))) (acc results : List (String × σ)),
      baseExtractionLoop applyMethod processedData acc cfg = some results →
      List.lookup name results ≠ none →
      (∃ scfg, (name, scfg) ∈ cfg ∧ getUseSeries scfg = true) ∨
        List.lookup name acc ≠ none := by
  intro cfg
  induction cfg with
  | nil =>
    intro acc results hloop hres
    simp only [baseExtractionLoop, Option.some.injEq] at hloop
    right
    rw [hloop]
    exact hres
  | cons entry rest ih =>
    intro acc results hloop hres
    obtain ⟨k, scfg⟩ := entry
    by_cases hcond : (getUseSeries scfg && (List.lookup k processedData).isSome) = true
    · rw [baseExtractionLoop, if_pos hcond] at hloop
      cases hm : baseSeriesStep applyMethod processedData k scfg with
      | none => rw [hm] at hloop; exact absurd hloop (by simp)
      | some v =>
        rw [hm] at hloop
        rcases ih (dinsert k v acc) results hloop hres with h | h
        · exact .inl (h.imp (fun scfg h => ⟨List.mem_cons_of_mem _ h.1, h.2⟩))
        · by_cases hk : k = name
          · subst hk
            left
            exact ⟨scfg, List.mem_cons_self _ _, (Bool.and_eq_true _ _ |>.mp hcond).1⟩
          · right
            rwa [lookup_dinsert_ne _ _ hk] at h
    · rw [baseExtractionLoop, if_neg hcond] at hloop
      rcases ih acc results hloop hres with h | h
      · exact .inl (h.imp (fun scfg h => ⟨List.mem_cons_of_mem _ h.1, h.2⟩))
      · exact .inr h

/-- **C2, amended.** The `use_series` filter is enforced by
`BaseRecording._apply_extraction`, not by `apply_extraction`: whenever the
configuration loop completes without `_apply_method` raising, every series
name present in its result has a configuration entry whose `use_series`
value is truthy (`true`); a configured series whose configuration lacks
`use_series` or sets it to `false` is never inserted. -/
theorem claim2_amended_use_series_filter {σ : Type u}
    (applyMethod : σ → CfgVal → List (String × CfgVal) → Option σ)
    (processedData : List (String × σ))
    (classConfig : List (String × List (String × CfgVal)))
    (results : List (String × σ)) (name : String) (v : σ)
    (hloop : baseExtractionLoop applyMethod processedData [] classConfig = some results)
    (hmem : List.lookup name results = some v) :
    base_apply_extraction applyMethod classConfig processedData = results ∧
    ∃ scfg, (name, scfg) ∈ classConfig ∧ getUseSeries scfg = true := by
  constructor
  · rw [base_apply_extraction, hloop]
  · rcases baseExtractionLoop_lookup_source applyMethod processedData name classConfig
      [] results hloop (by rw [hmem]; exact fun h => Option.noConfusion h) with h | h
    · exact h
    · exact absurd rfl h

theorem claim2_witness :
    base_apply_extraction (fun (d : List ℚ) _ _ => some d)
        [("a", [("use_series", CfgVal.bool true)]),
         ("b", [("use_series", CfgVal.bool false)])]
        [("a", [1]), ("b", [2])] = [("a", [1])] ∧
    ∃ scfg, ("a", scfg) ∈
        [("a", [("use_series", CfgVal.bool true)]),
         ("b", [("use_series", CfgVal.bool false)])] ∧ getUseSeries scfg = true :=
  claim2_amended_use_series_filter (fun (d : List ℚ) _ _ => some d)
    [("a", [1]), ("b", [2])]
    [("a", [("use_series", CfgVal.bool true)]),
     ("b", [("use_series", CfgVal.bool false)])]
    [("a", [1])] "a" [1] (by decide) (by decide)

/-! ## `remove_negative_values` (src/processing/remove_negative_values.py) -/

/-- A Python scalar as it can appear in a series after negative-value
replacement: a number, `None`, or a string (the replacement strategy is
compared against the literal string `"keep"`). -/
inductive PyVal where
  | num (q : ℚ)
  | none
  | str (s : String)
deriving DecidableEq

/-- `remove_negative_values` (remove_negative_values.py:4–50) on a numeric
series.  Input elements are numbers (a non-numeric element would raise in
the `value < 0` comparison, outside the claims' scope); the output embeds
them into `PyVal` since the replacement value may be `None`.  The
`time_data` argument is accepted and ignored, as in the source. -/
def remove_negative_values (data : List ℚ) (_timeData : Option (List ℚ))
    (replacement_value : PyVal) : List PyVal :=
  if replacement_value = .str "keep" then data.map .num
  else data.map (fun v => if v < 0 then replacement_value else .num v)

/-- **C5.** For every list `s` and replacement value `r ≠ "keep"`,
`remove_negative_values` preserves the length, keeps every element `≥ 0` at
its position and replaces every element `< 0` by `r`; with `r = "keep"` it
returns `s` unchanged.  On `[1, -2, 3]` it yields `[1, 0.0, 3]` for
`r = 0.0`, `[1, None, 3]` for `r = None`, and `[1, -2, 3]` for
`r = "keep"`. -/
theorem claim5_remove_negative_values_spec (data : List ℚ) (t : Option (List ℚ))
    (r : PyVal) (hr : r ≠ .str "keep") :
    ((remove_negative_values data t r).length = data.length ∧
      remove_negative_values data t r =
        data.map (fun v => if v < 0 then r else .num v)) ∧
    remove_negative_values data t (.str "keep") = data.map .num ∧
    remove_negative_values [1, -2, 3] none (.num 0) = [.num 1, .num 0, .num 3] ∧
    remove_negative_values [1, -2, 3] none .none = [.num 1, .none, .num 3] ∧
    remove_negative_values [1, -2, 3] none (.str "keep") =
      [.num 1, .num (-2), .num 3] := by
  refine ⟨⟨?_, ?_⟩, ?_, by decide, by decide, by decide⟩
  · rw [remove_negative_values, if_neg hr]
    exact List.length_map _ _
  · rw [remove_negative_values, if_neg hr]
  · rw [remove_negative_values, if_pos rfl]

theorem claim5_witness :
    (((remove_negative_values [5, -7] none (.num 9)).length = [(5 : ℚ), -7].length ∧
      remove_negative_values [5, -7] none (.num 9) =
        [(5 : ℚ), -7].map (fun v => if v < 0 then PyVal.num 9 else .num v)) ∧
    remove_negative_values [5, -7] none (.str "keep") = [(5 : ℚ), -7].map .num ∧
    remove_negative_values [1, -2, 3] none (.num 0) = [.num 1, .num 0, .num 3] ∧
    remove_negative_values [1, -2, 3] none .none = [.num 1, .none, .num 3] ∧
    remove_negative_values [1, -2, 3] none (.str "keep") =
      [.num 1, .num (-2), .num 3]) :=
  claim5_remove_negative_values_spec [5, -7] none (.num 9) (by decide)

/-! ## `resample_equal_lengths` (src/processing/resample_equal_lengths.py) -/

/-- `_truncate_series` (resample_equal_lengths.py:70–87): `"pre"` keeps the
last `target_length` samples (`data[-target_length:]`), anything else keeps
the first `target_length` samples (`data[:target_length]`). -/
def truncate_series (data : List ℚ) (target_length : ℕ) (cutoff_position : String) :
    List ℚ :=
  if cutoff_position = "pre" then data.drop (data.length - target_length)
  else data.take target_length

/-- `_pad_series` (resample_equal_lengths.py:90–114). -/
def pad_series (data : List ℚ) (target_length : ℕ) (padding_val : ℚ)
    (padding_pos : String) : List ℚ :=
  if padding_pos = "pre" then
    List.replicate (target_length - data.length) padding_val ++ data
  else data ++ List.replicate (target_length - data.length) padding_val

/-- `resample_equal_lengths` (resample_equal_lengths.py:1–67).  The
`time_data` argument is accepted and ignored, as in the source.  The Python
`int` target length is modelled as `ℕ`: the guard `target_length <= 0`
becomes `target_length = 0` (both return the unmodified data). -/
def resample_equal_lengths (data : List ℚ) (_timeData : Option (List ℚ))
    (target_length : ℕ) (cutoff_position : String) (padding_val : ℚ)
    (padding_pos : String) : List ℚ :=
  if data = [] ∨ target_length = 0 then data
  else if data.length = target_length then data
  else if target_length < data.length then
    truncate_series data target_length cutoff_position
  else pad_series data target_length padding_val padding_pos

/-- **C6.** For every non-empty `s` and `target_length L > 0`,
`resample_equal_lengths` returns a list of length exactly `L`; when
`len(s) > L` it keeps the first `L` samples for `cutoff_position = "post"`
and the last `L` for `"pre"`; when `len(s) < L` it appends
(`padding_pos = "post"`) or prepends (`"pre"`) `L - len(s)` copies of
`padding_val`; when `len(s) = L` it returns `s` unchanged. -/
theorem claim6_resample_equal_lengths_spec (data : List ℚ) (t : Option (List ℚ))
    (L : ℕ) (pv : ℚ) (hd : data ≠ []) (hL : 0 < L) :
    (∀ cp pp, (resample_equal_lengths data t L cp pv pp).length = L) ∧
    (L < data.length →
      (∀ pp, resample_equal_lengths data t L "post" pv pp = data.take L) ∧
      (∀ pp, resample_equal_lengths data t L "pre" pv pp =
        data.drop (data.length - L))) ∧
    (data.length < L →
      (∀ cp, resample_equal_lengths data t L cp pv "post" =
        data ++ List.replicate (L - data.length) pv) ∧
      (∀ cp, resample_equal_lengths data t L cp pv "pre" =
        List.replicate (L - data.length) pv ++ data)) ∧
    (data.length = L → ∀ cp pp, resample_equal_lengths data t L cp pv pp = data) := by
  have hg : ¬(data = [] ∨ L = 0) := by
    rintro (h | h)
    · exact hd h
    · omega
  refine ⟨?_, ?_, ?_, ?_⟩
  · intro cp pp
    rw [resample_equal_lengths, if_neg hg]
    by_cases he : data.length = L
    · rw [if_pos he]; exact he
    · rw [if_neg he]
      by_cases hlt : L < data.length
      · rw [if_pos hlt, truncate_series]
        by_cases hcp : cp = "pre"
        · rw [if_pos hcp, List.length_drop]; omega
        · rw [if_neg hcp, List.length_take]; omega
      · rw [if_neg hlt, pad_series]
        by_cases hpp : pp = "pre"
        · rw [if_pos hpp, List.length_append, List.length_replicate]; omega
        · rw [if_neg hpp, List.length_append, List.length_replicate]; omega
  · intro hlt
    constructor <;> intro _ <;>
      rw [resample_equal_lengths, if_neg hg, if_neg (by omega : ¬data.length = L),
        if_pos hlt, truncate_series]
    · rw [if_neg (by decide : ¬("post" : String) = "pre")]
    · rw [if_pos rfl]
  · intro hlt
    constructor <;> intro _ <;>
      rw [resample_equal_lengths, if_neg hg, if_neg (by omega : ¬data.length = L),
        if_neg (by omega : ¬L < data.length), pad_series]
    · rw [if_neg (by decide : ¬("post" : String) = "pre")]
    · rw [if_pos rfl]
  · intro he cp pp
    rw [resample_equal_lengths, if_neg hg, if_pos he]

theorem claim6_witness :
    (resample_equal_lengths [1, 2, 3] none 2 "post" 0 "post").length = 2 ∧
    resample_equal_lengths [(1 : ℚ), 2, 3] none 2 "post" 0 "post" = [1, 2] ∧
    resample_equal_lengths [(1 : ℚ), 2, 3] none 2 "pre" 0 "post" = [2, 3] ∧
    resample_equal_lengths [(1 : ℚ), 2] none 4 "post" 0 "post" = [1, 2, 0, 0] ∧
    resample_equal_lengths [(1 : ℚ), 2] none 4 "post" 0 "pre" = [0, 0, 1, 2] ∧
    resample_equal_lengths [(1 : ℚ), 2] none 2 "post" 0 "post" = [1, 2] := by
  have h3 := claim6_resample_equal_lengths_spec [1, 2, 3] none 2 0
    (by decide) (by decide)
  have h2 := claim6_resample_equal_lengths_spec [1, 2] none 4 0
    (by decide) (by decide)
  have h2b := claim6_resample_equal_lengths_spec [1, 2] none 2 0
    (by decide) (by decide)
  refine ⟨h3.1 "post" "post", ?_, ?_, ?_, ?_, h2b.2.2.2 (by decide) "post" "post"⟩
  · exact ((h3.2.1 (by decide)).1 "post").trans (by decide)
  · exact ((h3.2.1 (by decide)).2 "post").trans (by decide)
  · exact ((h2.2.2.1 (by decide)).1 "post").trans (by decide)
  · exact ((h2.2.2.1 (by decide)).2 "post").trans (by decide)

/-! ## `resample_uniform_times` (src/processing/resample_uniform_times.py)

Python float arithmetic is modelled by exact rationals; `round(x, 4)` and
`int(x)` are modelled exactly (round half to even, truncation toward
zero). -/

/-- Python `round(x, 4)` on an exact rational: round half to even at the
fourth decimal. -/
def pyRound4 (q : ℚ) : ℚ :=
  let s := q * 10000
  let f := ⌊s⌋
  let frac := s - f
  let r : ℤ :=
    if frac < 1 / 2 then f
    else if 1 / 2 < frac then f + 1
    else if f % 2 = 0 then f else f + 1
  (r : ℚ) / 10000

/-- Python `int(x)`: truncation toward zero. -/
def pyInt (q : ℚ) : ℤ := if 0 ≤ q then ⌊q⌋ else -⌊-q⌋

/-- Python `min(list)` on a non-empty list (`0` stands for the unreachable
empty-list `ValueError`). -/
def pyListMin (l : List ℚ) : ℚ :=
  match l with
  | [] => 0
  | x :: xs => xs.foldl min x

/-- Python `max(list)` on a non-empty list. -/
def pyListMax (l : List ℚ) : ℚ :=
  match l with
  | [] => 0
  | x :: xs => xs.foldl max x

/-- The bracket search of `_linear_interpolate`
(resample_uniform_times.py:96–108): find the first adjacent pair with
`time_data[i] ≤ target ≤ time_data[i+1]` and interpolate linearly
(`y0` if the two timestamps coincide). -/
def interpolateSearch : List ℚ → List ℚ → ℚ → Option ℚ
  | y0 :: y1 :: ys, t0 :: t1 :: ts, target =>
    if t0 ≤ target ∧ target ≤ t1 then
      some (if t1 = t0 then y0 else y0 + (y1 - y0) * ((target - t0) / (t1 - t0)))
    else interpolateSearch (y1 :: ys) (t1 :: ts) target
  | _, _, _ => none

/-- `_linear_interpolate` (resample_uniform_times.py:77–111); at every call
site `data` and `time_data` are non-empty and of equal length, so the `0`
defaults model unreachable `IndexError`s, and the `getD` fallback is the
source's final `return data[-1]`. -/
def linear_interpolate (data timeData : List ℚ) (target : ℚ) : ℚ :=
  if target ≤ timeData.headD 0 then data.headD 0
  else if timeData.getLastD 0 ≤ target then data.getLastD 0
  else (interpolateSearch data timeData target).getD (data.getLastD 0)

/-- `resample_uniform_times` (resample_uniform_times.py:1–74). -/
def resample_uniform_times (data : List ℚ) (timeData : Option (List ℚ))
    (target_distance : ℚ) : List ℚ :=
  match timeData with
  | none => data
  | some time =>
    if time.isEmpty then data
    else if data.length ≠ time.length then data
    else if data.length < 2 then data
    else if target_distance ≤ 0 then data
    else
      let startTime := pyListMin time
      let endTime := pyListMax time
      let numPoints := pyInt ((endTime - startTime) / target_distance) + 1
      let newTimePoints := ((List.range numPoints.toNat).map
        (fun i => pyRound4 (startTime + (i : ℚ) * target_distance))).filter
          (fun t => t ≤ endTime)
      if newTimePoints.length ≤ 1 then data
      else newTimePoints.map (linear_interpolate data time)

/-- **C7.** `resample_uniform_times([10,15,25,30], [0.0,0.005,0.015,0.02],
0.01)` returns the values at the uniform grid `[0.0, 0.01, 0.02]`, namely
`[10, 20, 30]`: the grid point at the first timestamp yields the first
sample, the one at the last timestamp yields the last sample, and the
interior point `0.01` is linearly interpolated between `(0.005, 15)` and
`(0.015, 25)`, giving `20`. -/
theorem claim7_resample_uniform_times_example :
    resample_uniform_times [10, 15, 25, 30] (some [0, 1 / 200, 3 / 200, 1 / 50])
        (1 / 100) = [10, 20, 30] ∧
    linear_interpolate [10, 15, 25, 30] [0, 1 / 200, 3 / 200, 1 / 50] (1 / 100) = 20 := by
  have hinterp :
      linear_interpolate [10, 15, 25, 30] [0, 1 / 200, 3 / 200, 1 / 50] (1 / 100) = 20 := by
    norm_num [linear_interpolate, interpolateSearch, List.getLastD]
  refine ⟨?_, hinterp⟩
  have hmin : pyListMin [0, 1 / 200, 3 / 200, 1 / 50] = 0 := by
    norm_num [pyListMin, List.foldl, min_def]
  have hmax : pyListMax [0, 1 / 200, 3 / 200, 1 / 50] = 1 / 50 := by
    norm_num [pyListMax, List.foldl, max_def]
  have hint : pyInt ((1 / 50 - 0) / (1 / 100 : ℚ)) = 2 := by
    have : ((1 / 50 - 0) / (1 / 100) : ℚ) = 2 := by norm_num
    rw [pyInt, this]
    norm_num
  have hr0 : pyRound4 (0 + (0 : ℕ) * (1 / 100 : ℚ)) = 0 := by
    norm_num [pyRound4]
  have hr1 : pyRound4 (0 + (1 : ℕ) * (1 / 100 : ℚ)) = 1 / 100 := by
    have h1 : ((0 + (1 : ℕ) * (1 / 100 : ℚ)) * 10000) = 100 := by norm_num
    rw [pyRound4]
    rw [h1]
    norm_num
  have hr2 : pyRound4 (0 + (2 : ℕ) * (1 / 100 : ℚ)) = 1 / 50 := by
    have h1 : ((0 + (2 : ℕ) * (1 / 100 : ℚ)) * 10000) = 200 := by norm_num
    rw [pyRound4]
    rw [h1]
    norm_num
  have hq0 : pyRound4 0 = 0 := by
    rw [pyRound4]
    norm_num
  have hq1 : pyRound4 (1 / 100) = 1 / 100 := by
    have h1 : ((1 / 100 : ℚ) * 10000) = 100 := by norm_num
    rw [pyRound4, h1]
    norm_num
  have hq2 : pyRound4 (1 / 50) = 1 / 50 := by
    have h1 : ((1 / 50 : ℚ) * 10000) = 200 := by norm_num
    rw [pyRound4, h1]
    norm_num
  rw [resample_uniform_times]
  norm_num [hmin, hmax, hint, List.range_succ, hr0, hr1, hr2, hq0, hq1, hq2,
    List.filter, linear_interpolate, interpolateSearch, List.getLastD]

/-! ## `extract_paa` (src/extraction/extract_paa.py) -/

/-- `np.mean` over exact rationals (division by zero — numpy's NaN on an
empty segment — yields `0` in `ℚ`; every segment is non-empty when
`target_length < len(data)`, so this is unreachable there). -/
def npMeanQ (l : List ℚ) : ℚ := l.sum / l.length

/-- `extract_paa` (extract_paa.py:4–73).  `int(i * segment_size)` with the
float `segment_size = data_length / paa_target_length` is modelled exactly
as `⌊i·n/L⌋`, i.e. natural division.  The `except` fallback
(extract_paa.py:62–73) is unreachable in exact arithmetic. -/
def extract_paa (data : List ℚ) (paa_target_length : ℕ) : List ℚ :=
  if data.isEmpty then List.replicate paa_target_length 0
  else if data.length = 1 then List.replicate paa_target_length (data.headD 0)
  else if data.length ≤ paa_target_length then
    (data ++ List.replicate (paa_target_length - data.length) 0).take paa_target_length
  else
    (List.range paa_target_length).map (fun i =>
      let startIdx := i * data.length / paa_target_length
      let endIdx :=
        if i = paa_target_length - 1 then data.length
        else (i + 1) * data.length / paa_target_length
      npMeanQ ((data.drop startIdx).take (endIdx - startIdx)))

/-- **C8.** For every `paa_target_length L ≥ 1`, `extract_paa` returns a
list of length exactly `L` for every input; empty input yields `L` zeros,
single-sample input yields `L` copies of that sample, and for
`2 ≤ len(data) ≤ L` the result is the raw series right-padded with zeros to
length `L` rather than segment means. -/
theorem claim8_extract_paa_spec (data : List ℚ) (L : ℕ) (hL : 1 ≤ L) :
    (extract_paa data L).length = L ∧
    (data = [] → extract_paa data L = List.replicate L 0) ∧
    (∀ x, data = [x] → extract_paa data L = List.replicate L x) ∧
    (2 ≤ data.length → data.length ≤ L →
      extract_paa data L = data ++ List.replicate (L - data.length) 0) := by
  refine ⟨?_, ?_, ?_, ?_⟩
  · by_cases hd : data.isEmpty
    · rw [extract_paa, if_pos hd, List.length_replicate]
    · rw [extract_paa, if_neg hd]
      by_cases h1 : data.length = 1
      · rw [if_pos h1, List.length_replicate]
      · rw [if_neg h1]
        by_cases h2 : data.length ≤ L
        · rw [if_pos h2, List.length_take, List.length_append, List.length_replicate]
          omega
        · rw [if_neg h2, List.length_map, List.length_range]
  · intro hd
    subst hd
    rfl
  · intro x hd
    subst hd
    rfl
  · intro h2 hle
    have hd : ¬(data.isEmpty = true) := by
      cases data with
      | nil => simp at h2
      | cons _ _ => simp
    rw [extract_paa, if_neg hd, if_neg (by omega : ¬data.length = 1), if_pos hle]
    exact List.take_of_length_le (by rw [List.length_append, List.length_replicate]; omega)

theorem claim8_witness :
    (extract_paa [(1 : ℚ), 2] 3).length = 3 ∧
    extract_paa [(1 : ℚ), 2] 3 = [1, 2] ++ List.replicate (3 - [(1 : ℚ), 2].length) 0 ∧
    extract_paa ([] : List ℚ) 3 = List.replicate 3 0 ∧
    extract_paa [(5 : ℚ)] 3 = List.replicate 3 5 :=
  ⟨(claim8_extract_paa_spec [1, 2] 3 (by decide)).1,
   (claim8_extract_paa_spec [1, 2] 3 (by decide)).2.2.2 (by decide) (by decide),
   (claim8_extract_paa_spec [] 3 (by decide)).2.1 rfl,
   (claim8_extract_paa_spec [5] 3 (by decide)).2.2.1 5 rfl⟩

/-! ## `extract_statistical` (src/extraction/extract_statistical.py)

The statistical feature bank takes square roots, so this embedding lives in
`ℝ` (floats as exact reals; the definitions are noncomputable).  scipy's
skewness and excess kurtosis evaluate `0/0` to IEEE NaN exactly when the
second central moment vanishes: `Option ℝ` with `none` for NaN models a
feature value, and `_compute_features` replaces NaN by `0.0`.  Only the
`basic` feature group (extract_statistical.py:63–85) is modelled — the
`time` and `frequency` groups are outside the claims' scope. -/

/-- `np.mean` (NaN on empty input is unreachable behind the guards). -/
noncomputable def npMean (l : List ℝ) : ℝ := l.sum / l.length

/-- `np.std` (population standard deviation, `ddof = 0`). -/
noncomputable def npStd (l : List ℝ) : ℝ :=
  Real.sqrt (npMean (l.map fun x => (x - npMean l) ^ 2))

/-- `np.max` on a non-empty array (`0` stands for the unreachable
empty-array error). -/
noncomputable def npMax (l : List ℝ) : ℝ :=
  match l with
  | [] => 0
  | x :: xs => xs.foldl max x

/-- `np.min` on a non-empty array. -/
noncomputable def npMin (l : List ℝ) : ℝ :=
  match l with
  | [] => 0
  | x :: xs => xs.foldl min x

open Classical in
/-- Insertion into a sorted list, the building block of the ascending sort
used by `np.median` / `np.percentile`. -/
noncomputable def insertSorted (x : ℝ) : List ℝ → List ℝ
  | [] => [x]
  | y :: ys => if x ≤ y then x :: y :: ys else y :: insertSorted x ys

/-- `np.sort` (ascending, stable). -/
noncomputable def npSort (l : List ℝ) : List ℝ := l.foldr insertSorted []

/-- `np.median`: middle element of the sorted array, or the mean of the two
middle elements for even length. -/
noncomputable def npMedian (l : List ℝ) : ℝ :=
  let a := npSort l
  let n := a.length
  if n % 2 = 1 then a.getD (n / 2) 0
  else (a.getD (n / 2 - 1) 0 + a.getD (n / 2) 0) / 2

/-- `np.percentile` with the default linear interpolation: virtual index
`h = (n-1)·q/100`, linear interpolation between the bracketing sorted
entries. -/
noncomputable def npPercentile (l : List ℝ) (q : ℝ) : ℝ :=
  let a := npSort l
  let h := ((a.length : ℝ) - 1) * (q / 100)
  let i := (⌊h⌋).toNat
  a.getD i 0 + (h - ⌊h⌋) * (a.getD (i + 1) 0 - a.getD i 0)

open Classical in
/-- `scipy.stats.skew` (biased): `m₃ / m₂^{3/2}`, which is IEEE `0/0 = NaN`
exactly when `m₂ = 0` (then `m₃ = 0` as well). -/
noncomputable def scipySkew (l : List ℝ) : Option ℝ :=
  let m := npMean l
  let m2 := npMean (l.map fun x => (x - m) ^ 2)
  let m3 := npMean (l.map fun x => (x - m) ^ 3)
  if m2 = 0 then none else some (m3 / Real.sqrt (m2 ^ 3))

open Classical in
/-- `scipy.stats.kurtosis` (Fisher, biased): `m₄ / m₂² - 3`, NaN exactly
when `m₂ = 0`. -/
noncomputable def scipyKurtosis (l : List ℝ) : Option ℝ :=
  let m := npMean l
  let m2 := npMean (l.map fun x => (x - m) ^ 2)
  let m4 := npMean (l.map fun x => (x - m) ^ 4)
  if m2 = 0 then none else some (m4 / m2 ^ 2 - 3)

/-- `_compute_basic_statistical_features`
(extract_statistical.py:63–85): the 14 `basic` features, in source order;
`none` is a NaN value. -/
noncomputable def compute_basic_statistical_features (l : List ℝ) : List (Option ℝ) :=
  [some (npMean l),
   some (npStd l),
   some (npMax l),
   some (npMin l),
   some (npMedian l),
   some (npMax l - npMin l),
   some (npPercentile l 25),
   some (npPercentile l 75),
   some (npPercentile l 75 - npPercentile l 25),
   scipySkew l,
   scipyKurtosis l,
   some (Real.sqrt (npMean (l.map fun x => x ^ 2))),
   some ((l.map fun x => x ^ 2).sum),
   some ((l.map fun x => |x|).sum)]

/-- `extract_statistical(data, statistical_features=["basic"])`
(extract_statistical.py:5–60): guards for empty and single-sample input,
then the `basic` feature group with NaN replaced by `0.0`.  The `except`
fallback (lines 39–42) is unreachable in exact arithmetic. -/
noncomputable def extract_statistical_basic (data : List ℝ) : List ℝ :=
  if data = [] then List.replicate 14 0
  else if data.length = 1 then
    [data.headD 0, 0, data.headD 0, data.headD 0, data.headD 0, 0, data.headD 0,
     data.headD 0, 0, 0, 0, data.headD 0, data.headD 0 ^ 2, |data.headD 0|]
  else (compute_basic_statistical_features data).map (fun o => o.getD 0)

theorem sum_replicate_real (n : ℕ) (v : ℝ) : (List.replicate n v).sum = n * v := by
  rw [List.sum_replicate, nsmul_eq_mul]

theorem npMean_replicate (n : ℕ) (v : ℝ) (hn : n ≠ 0) :
    npMean (List.replicate n v) = v := by
  rw [npMean, sum_replicate_real, List.length_replicate]
  exact mul_div_cancel_left₀ v (Nat.cast_ne_zero.mpr hn)

theorem foldl_max_replicate (v : ℝ) : ∀ m, (List.replicate m v).foldl max v = v := by
  intro m
  induction m with
  | zero => rfl
  | succ k ih => rw [List.replicate_succ, List.foldl_cons, max_self]; exact ih

theorem foldl_min_replicate (v : ℝ) : ∀ m, (List.replicate m v).foldl min v = v := by
  intro m
  induction m with
  | zero => rfl
  | succ k ih => rw [List.replicate_succ, List.foldl_cons, min_self]; exact ih

theorem npMax_replicate (n : ℕ) (v : ℝ) (hn : n ≠ 0) : npMax (List.replicate n v) = v := by
  cases n with
  | zero => exact absurd rfl hn
  | succ m =>
    rw [List.replicate_succ]
    show (List.replicate m v).foldl max v = v
    exact foldl_max_replicate v m

theorem npMin_replicate (n : ℕ) (v : ℝ) (hn : n ≠ 0) : npMin (List.replicate n v) = v := by
  cases n with
  | zero => exact absurd rfl hn
  | succ m =>
    rw [List.replicate_succ]
    show (List.replicate m v).foldl min v = v
    exact foldl_min_replicate v m

theorem insertSorted_replicate (v : ℝ) (m : ℕ) :
    insertSorted v (List.replicate m v) = List.replicate (m + 1) v := by
  cases m with
  | zero => rfl
  | succ k =>
    show insertSorted v (v :: List.replicate k v) = v :: v :: List.replicate k v
    rw [insertSorted, if_pos le_rfl]

theorem npSort_replicate (n : ℕ) (v : ℝ) :
    npSort (List.replicate n v) = List.replicate n v := by
  induction n with
  | zero => rfl
  | succ k ih =>
    rw [List.replicate_succ, npSort, List.foldr_cons]
    rw [show (List.replicate k v).foldr insertSorted [] = List.replicate k v from ih]
    exact insertSorted_replicate v k

theorem getD_replicate (n : ℕ) (i : ℕ) (v : ℝ) (h : i < n) :
    (List.replicate n v).getD i 0 = v := by
  induction n generalizing i with
  | zero => omega
  | succ k ih =>
    cases i with
    | zero => rfl
    | succ j =>
      rw [List.replicate_succ]
      show (List.replicate k v).getD j 0 = v
      exact ih j (by omega)

theorem npMedian_replicate (n : ℕ) (v : ℝ) (hn : n ≠ 0) :
    npMedian (List.replicate n v) = v := by
  simp only [npMedian, npSort_replicate, List.length_replicate]
  by_cases hpar : n % 2 = 1
  · rw [if_pos hpar]
    exact getD_replicate n _ v (by omega)
  · rw [if_neg hpar, getD_replicate n _ v (by omega), getD_replicate n _ v (by omega)]
    exact add_self_div_two v

theorem npPercentile_replicate (n : ℕ) (v : ℝ) (q : ℝ) (hn : 2 ≤ n)
    (h0 : 0 ≤ q) (h1 : q < 100) : npPercentile (List.replicate n v) q = v := by
  simp only [npPercentile, npSort_replicate, List.length_replicate]
  set h := ((n : ℝ) - 1) * (q / 100) with hdef
  have hn1 : (1 : ℝ) ≤ (n : ℝ) := by exact_mod_cast Nat.one_le_of_lt hn
  have hh0 : 0 ≤ h := by
    apply mul_nonneg
    · linarith
    · positivity
  have hfl0 : 0 ≤ ⌊h⌋ := Int.floor_nonneg.mpr hh0
  have hpos : (0 : ℝ) < (n : ℝ) - 1 := by
    have : (2 : ℝ) ≤ (n : ℝ) := by exact_mod_cast hn
    linarith
  have hq1 : q / 100 < 1 := (div_lt_one (by norm_num)).mpr h1
  have hlt : h < (n : ℝ) - 1 := by
    calc h = ((n : ℝ) - 1) * (q / 100) := hdef
      _ < ((n : ℝ) - 1) * 1 := by exact mul_lt_mul_of_pos_left hq1 hpos
      _ = (n : ℝ) - 1 := mul_one _
  have hfl_lt : ⌊h⌋ < (n : ℤ) - 1 := by
    have hle : (⌊h⌋ : ℝ) ≤ h := Int.floor_le h
    have hcast : (⌊h⌋ : ℝ) < (n : ℝ) - 1 := lt_of_le_of_lt hle hlt
    exact_mod_cast hcast
  have hi1 : ⌊h⌋.toNat < n := by omega
  have hi2 : ⌊h⌋.toNat + 1 < n := by omega
  rw [getD_replicate n _ v hi1, getD_replicate n _ v hi2]
  ring

theorem scipySkew_replicate (n : ℕ) (v : ℝ) (hn : n ≠ 0) :
    scipySkew (List.replicate n v) = none := by
  have hm := npMean_replicate n v hn
  have hmap0 : (List.replicate n v).map
      (fun x => (x - npMean (List.replicate n v)) ^ 2) = List.replicate n 0 := by
    simp only [hm, List.map_replicate, sub_self]
    norm_num
  simp only [scipySkew, hmap0, npMean_replicate n (0 : ℝ) hn]
  simp

theorem scipyKurtosis_replicate (n : ℕ) (v : ℝ) (hn : n ≠ 0) :
    scipyKurtosis (List.replicate n v) = none := by
  have hm := npMean_replicate n v hn
  have hmap0 : (List.replicate n v).map
      (fun x => (x - npMean (List.replicate n v)) ^ 2) = List.replicate n 0 := by
    simp only [hm, List.map_replicate, sub_self]
    norm_num
  simp only [scipyKurtosis, hmap0, npMean_replicate n (0 : ℝ) hn]
  simp

/-- **C9.** For every constant series of value `v` with length `n ≥ 2`,
`extract_statistical` with `statistical_features = ["basic"]` returns 14
values with mean = median = min = max = 25th percentile = 75th percentile
= `v`, std = range = iqr = 0, skewness = kurtosis = 0 (the NaN these
produce on constant input is replaced by `0.0`), rms = `|v|`,
energy = `n·v²`, and absolute energy = `n·|v|`. -/
theorem claim9_extract_statistical_basic_constant (v : ℝ) (n : ℕ) (hn : 2 ≤ n) :
    extract_statistical_basic (List.replicate n v) =
      [v, 0, v, v, v, 0, v, v, 0, 0, 0, |v|, n * v ^ 2, n * |v|] := by
  have hn0 : n ≠ 0 := by omega
  have hm := npMean_replicate n v hn0
  have hmax := npMax_replicate n v hn0
  have hmin := npMin_replicate n v hn0
  have hmed := npMedian_replicate n v hn0
  have hp25 := npPercentile_replicate n v 25 hn (by norm_num) (by norm_num)
  have hp75 := npPercentile_replicate n v 75 hn (by norm_num) (by norm_num)
  have hskew := scipySkew_replicate n v hn0
  have hkurt := scipyKurtosis_replicate n v hn0
  have hmap0 : (List.replicate n v).map
      (fun x => (x - npMean (List.replicate n v)) ^ 2) = List.replicate n 0 := by
    simp only [hm, List.map_replicate, sub_self]
    norm_num
  have hstd : npStd (List.replicate n v) = 0 := by
    rw [npStd, hmap0, npMean_replicate n (0 : ℝ) hn0, Real.sqrt_zero]
  have hrms : Real.sqrt (npMean ((List.replicate n v).map fun x => x ^ 2)) = |v| := by
    rw [List.map_replicate, npMean_replicate n (v ^ 2) hn0, Real.sqrt_sq_eq_abs]
  have hen : ((List.replicate n v).map fun x => x ^ 2).sum = (n : ℝ) * v ^ 2 := by
    rw [List.map_replicate, sum_replicate_real]
  have habs : ((List.replicate n v).map fun x => |x|).sum = (n : ℝ) * |v| := by
    rw [List.map_replicate, sum_replicate_real]
  have hne : ¬(List.replicate n v = []) := by
    intro h
    have hlen := congrArg List.length h
    simp at hlen
    omega
  have hlen1 : ¬((List.replicate n v).length = 1) := by
    rw [List.length_replicate]
    omega
  rw [extract_statistical_basic, if_neg hne, if_neg hlen1,
    compute_basic_statistical_features]
  simp only [List.map_cons, List.map_nil, Option.getD_some, Option.getD_none,
    hm, hmax, hmin, hmed, hp25, hp75, hskew, hkurt, hstd, hrms, hen, habs, sub_self]

theorem claim9_witness :
    extract_statistical_basic (List.replicate 2 (3 : ℝ)) =
      [3, 0, 3, 3, 3, 0, 3, 3, 0, 0, 0, |(3 : ℝ)|, (2 : ℕ) * 3 ^ 2, (2 : ℕ) * |(3 : ℝ)|] :=
  claim9_extract_statistical_basic_constant 3 2 (by norm_num)
